import Mathlib

/-!
Verification of the file-integrity-monitor core (fim/hasher.py, fim/database.py,
fim/monitor.py) against its natural-language specification.

Modelling conventions:
* The filesystem is a finite association list from absolute path to a `FileData`
  record holding the byte content and the stat fields the monitor reads
  (`st_size`, `st_mtime`, `st_ctime`, `st_mode`).  `os.walk` over a root is
  modelled as enumerating the stored file paths that have the (absolute) root
  as a string prefix; the root-existence test `os.path.exists(abs_include_path)`
  is modelled by membership of the root in `FS.dirs` (a root that exists only
  as a regular file yields no walked files, which is the same as skipping it).
* Timestamps and sizes are modelled as `Int`/`Nat`; the code only ever compares
  them for equality.
* `os.path.abspath` depends on the process environment, so it is passed in as
  an uninterpreted function `abspath : String → String`.
* Hash algorithms: `hashlib.algorithms_available` is an uninterpreted list of
  (lower-case) names and the digest itself an uninterpreted function
  `hashFn : algorithm → bytes → hex string`, both bundled in `HashEnv`.
* The SQLite store is an association list from `file_path` to its row, plus a
  `broken` flag: a broken store makes every SQL statement raise
  `sqlite3.Error` (modelled as `DbError.sqlite_error`).  Each `DatabaseManager`
  method that catches `sqlite3.Error` without re-raising returns the exception
  it lets escape as an `Option DbError` / `Except DbError` component, exactly
  mirroring the `try/except` structure of `fim/database.py`.
* Python `time.time()` is modelled by a fixed `now : Int` in the environment.
-/

set_option linter.unusedVariables false

namespace FIM

/-- Model of Python's `str.startswith`: a raw character-prefix test. -/
def startswith (pre s : String) : Bool :=
  pre.data.isPrefixOf s.data

/-- Model of Python's `str.lower` on algorithm names. -/
def str_lower (s : String) : String :=
  ⟨s.data.map Char.toLower⟩

/-- The stat data and byte content of one file, as read by the monitor. -/
structure FileData where
  content : List Nat
  st_size : Nat
  st_mtime : Int
  st_ctime : Int
  st_mode : Nat
deriving DecidableEq, Repr

/-- The filesystem: files keyed by absolute path, plus the set of existing
directories (used for the `os.path.exists` check on include roots). -/
structure FS where
  files : List (String × FileData)
  dirs : List String
deriving DecidableEq, Repr

/-- Model of `os.path.exists` for regular files. -/
def os_path_exists (fs : FS) (p : String) : Bool :=
  (fs.files.lookup p).isSome

/-- Model of the `os.walk` loops of `create_baseline` / `check_integrity`:
the files reachable under a root, i.e. the stored paths having the root as a
string prefix.  (`os.path.join(root, file_name)` is elided: paths are stored
absolute.) -/
def walk_files (fs : FS) (root : String) : List String :=
  (fs.files.map Prod.fst).filter (fun p => startswith root p)

/-- The exceptions `calculate_file_hash` can raise in fim/hasher.py:
`FileNotFoundError` (path missing) and `ValueError` (unsupported algorithm). -/
inductive HashError where
  | FileNotFoundError
  | ValueError
deriving DecidableEq, Repr

/-- The hashing environment: `hashlib.algorithms_available` (a set of
lower-case algorithm names) and the digest function itself, uninterpreted. -/
structure HashEnv where
  algorithms_available : List String
  hashFn : String → List Nat → String

/-- Embedding of `calculate_file_hash` (fim/hasher.py lines 6-44): existence
check first, then the algorithm name is lower-cased and looked up in
`algorithms_available`, then the content is streamed through the digest.  The
chunked read is elided: the whole content is hashed at once. -/
def calculate_file_hash (henv : HashEnv) (fs : FS) (file_path : String)
    (algorithm : String) : Except HashError String :=
  match fs.files.lookup file_path with
  | none => .error .FileNotFoundError
  | some fd =>
    let algorithm := str_lower algorithm
    if henv.algorithms_available.contains algorithm then
      .ok (henv.hashFn algorithm fd.content)
    else
      .error .ValueError

/-- One row of the `monitored_files` table (fim/database.py lines 46-56). -/
structure Entry where
  file_path : String
  file_hash : String
  file_size : Nat
  modification_time : Int
  creation_time : Int
  permissions : Nat
  baseline_timestamp : Int
deriving DecidableEq, Repr

/-- Model of `sqlite3.Error` (the spec calls this `StorageError`). -/
inductive DbError where
  | sqlite_error
deriving DecidableEq, Repr

/-- The persistent store: the table rows keyed by `file_path`, plus a
`broken` flag modelling a storage-failure state in which every SQL statement
raises `sqlite3.Error`. -/
structure DB where
  rows : List (String × Entry)
  broken : Bool
deriving DecidableEq, Repr

/-- A freshly initialized, healthy, empty store. -/
def emptyDB : DB := { rows := [], broken := false }

/-- Well-formedness of the store: `file_path` is the table's primary key, so
there is at most one row per path. -/
def DB.wf (db : DB) : Prop := (db.rows.map Prod.fst).Nodup

/-- Embedding of `DatabaseManager.save_baseline_entry` (fim/database.py lines
62-78).  The `INSERT OR REPLACE` upserts the row and stamps
`baseline_timestamp` with the current time.  The surrounding
`try/except sqlite3.Error` catches any storage failure and only logs it, so
the second component — the exception the method lets escape to its caller —
is always `none`, and on a broken store nothing is written. -/
def save_baseline_entry (now : Int) (db : DB) (file_path file_hash : String)
    (file_size : Nat) (modification_time creation_time : Int)
    (permissions : Nat) : DB × Option DbError :=
  if db.broken then
    (db, none)
  else
    ({ db with rows :=
        db.rows.filter (fun r => r.1 != file_path) ++
          [(file_path,
            { file_path := file_path, file_hash := file_hash,
              file_size := file_size, modification_time := modification_time,
              creation_time := creation_time, permissions := permissions,
              baseline_timestamp := now })] },
     none)

/-- The row `get_baseline_entry` returns when its SELECT does not raise. -/
def get_baseline_entry_ok (db : DB) (file_path : String) : Option Entry :=
  db.rows.lookup file_path

/-- Embedding of `DatabaseManager.get_baseline_entry` (fim/database.py lines
80-95): on `sqlite3.Error` the except-block logs and re-raises, so the error
propagates to the caller. -/
def get_baseline_entry (db : DB) (file_path : String) :
    Except DbError (Option Entry) :=
  if db.broken then .error .sqlite_error
  else .ok (get_baseline_entry_ok db file_path)

/-- The path set `get_all_baseline_paths` returns when its SELECT succeeds. -/
def get_all_baseline_paths_ok (db : DB) : List String :=
  db.rows.map Prod.fst

/-- Embedding of `DatabaseManager.get_all_baseline_paths` (fim/database.py
lines 97-108): on `sqlite3.Error` the except-block logs and re-raises. -/
def get_all_baseline_paths (db : DB) : Except DbError (List String) :=
  if db.broken then .error .sqlite_error
  else .ok (get_all_baseline_paths_ok db)

/-- Embedding of `DatabaseManager.remove_baseline_entry` (fim/database.py
lines 110-121): DELETE of the row; storage failures are caught and logged,
never re-raised. -/
def remove_baseline_entry (db : DB) (file_path : String) : DB × Option DbError :=
  if db.broken then (db, none)
  else ({ db with rows := db.rows.filter (fun r => r.1 != file_path) }, none)

/-- The `include`/`exclude` lists of `self.monitored_paths`. -/
structure MonitoredPaths where
  include_paths : List String
  exclude_paths : List String
deriving DecidableEq, Repr

/-- The ambient environment of a monitor run: the hashing environment, the
configured `HASH_ALGORITHM`, `os.path.abspath`, and the wall clock. -/
structure Env where
  hashEnv : HashEnv
  HASH_ALGORITHM : String
  abspath : String → String
  now : Int

/-- Embedding of `FileIntegrityMonitor._is_path_monitored` (fim/monitor.py
lines 41-53): exclude rules first — a prefix match returns `False`
immediately; otherwise the include rules; otherwise `False`.  Each configured
entry is resolved with `os.path.abspath`; the match is Python's raw
`str.startswith`, with no separator-boundary check. -/
def is_path_monitored (abspath : String → String) (mp : MonitoredPaths)
    (file_path : String) : Bool :=
  if mp.exclude_paths.any (fun e => startswith (abspath e) file_path) then
    false
  else
    mp.include_paths.any (fun i => startswith (abspath i) file_path)

/-- The metadata record built by `_get_file_metadata`. -/
structure Metadata where
  file_path : String
  file_size : Nat
  modification_time : Int
  creation_time : Int
  permissions : Nat
deriving DecidableEq, Repr

/-- Embedding of `FileIntegrityMonitor._get_file_metadata` (fim/monitor.py
lines 55-72): `os.stat` on a missing file (or any other stat failure) yields
`None`; otherwise the stat fields, with the mode masked to its permission
bits (`st_mode & 0o777`). -/
def get_file_metadata (fs : FS) (file_path : String) : Option Metadata :=
  (fs.files.lookup file_path).map (fun st =>
    { file_path := file_path, file_size := st.st_size,
      modification_time := st.st_mtime, creation_time := st.st_ctime,
      permissions := st.st_mode &&& 0o777 })

/-- The file traversal shared by `create_baseline` (fim/monitor.py lines
80-89) and `check_integrity` (lines 121-128): for each include path, resolve
it, skip it if it does not exist, walk it, and keep the files accepted by
`_is_path_monitored`. -/
def scan_files (env : Env) (mp : MonitoredPaths) (fs : FS) : List String :=
  ((mp.include_paths.map env.abspath).filter (fun r => fs.dirs.contains r)).flatMap
    (fun root =>
      (walk_files fs root).filter (fun p => is_path_monitored env.abspath mp p))

/-- The per-file body of `create_baseline` (fim/monitor.py lines 90-104):
hash the file (a raised exception is caught by the per-file `except`, which
logs and skips), stat it, and `if metadata and file_hash` save the entry and
bump `monitored_count`.  (`file_hash` is falsy in Python exactly when it is
the empty string.) -/
def process_file (env : Env) (fs : FS) (acc : DB × Nat) (file_path : String) :
    DB × Nat :=
  match calculate_file_hash env.hashEnv fs file_path env.HASH_ALGORITHM with
  | .error _ => acc
  | .ok file_hash =>
    match get_file_metadata fs file_path with
    | none => acc
    | some md =>
      if file_hash = "" then acc
      else
        ((save_baseline_entry env.now acc.1 file_path file_hash md.file_size
            md.modification_time md.creation_time md.permissions).1,
         acc.2 + 1)

/-- Embedding of `FileIntegrityMonitor.create_baseline` (fim/monitor.py lines
74-105): fold the per-file processing over the traversal, starting from the
given store and `monitored_count = 0`.  The result is the final store and the
final (logged) `monitored_count`. -/
def create_baseline (env : Env) (mp : MonitoredPaths) (fs : FS) (db : DB) :
    DB × Nat :=
  (scan_files env mp fs).foldl (process_file env fs) (db, 0)

/-- The value `create_baseline` hands back to its caller: the Python function
ends without a `return` statement, so its return value is `None`. -/
def create_baseline_result (env : Env) (mp : MonitoredPaths) (fs : FS)
    (db : DB) : Option Nat :=
  none

/-- The four `type` tags a modified-entry can carry, each with the old and
new value of the differing field (fim/monitor.py lines 158-171; the code
renders the permission values through `oct(...)`, which is elided here). -/
inductive ModDetail where
  | size_mismatch (old_size new_size : Nat)
  | mtime_mismatch (old_mtime new_mtime : Int)
  | permissions_mismatch (old_perms new_perms : Nat)
  | hash_mismatch (old_hash new_hash : String)
deriving DecidableEq, Repr

/-- The tag alone, without the carried values. -/
inductive ModKind where
  | size_k | mtime_k | permissions_k | hash_k
deriving DecidableEq, Repr

/-- The tag of a detail. -/
def ModDetail.kind : ModDetail → ModKind
  | .size_mismatch _ _ => .size_k
  | .mtime_mismatch _ _ => .mtime_k
  | .permissions_mismatch _ _ => .permissions_k
  | .hash_mismatch _ _ => .hash_k

/-- One element of `changes['modified']`. -/
structure ModEntry where
  file : String
  detail : ModDetail
deriving DecidableEq, Repr

/-- One element of `changes['added']` or `changes['deleted']`. -/
structure FileReason where
  file : String
  reason : String
deriving DecidableEq, Repr

/-- The `changes` dictionary returned by `check_integrity`. -/
structure Changes where
  added : List FileReason
  modified : List ModEntry
  deleted : List FileReason
deriving DecidableEq, Repr

/-- The ordered, short-circuited comparison of one file against its baseline
row (fim/monitor.py lines 156-174): size, then mtime, then permission bits;
only when all three match is the hash recomputed and compared.  A raised
exception inside this `try` block (e.g. from `calculate_file_hash`) is caught,
logged, and the path skipped — `none` here. -/
def compare_entry (env : Env) (fs : FS) (file_path : String) (md : Metadata)
    (be : Entry) : Option ModDetail :=
  if md.file_size ≠ be.file_size then
    some (.size_mismatch be.file_size md.file_size)
  else if md.modification_time ≠ be.modification_time then
    some (.mtime_mismatch be.modification_time md.modification_time)
  else if md.permissions ≠ be.permissions then
    some (.permissions_mismatch be.permissions md.permissions)
  else
    match calculate_file_hash env.hashEnv fs file_path env.HASH_ALGORITHM with
    | .ok current_hash =>
      if current_hash ≠ be.file_hash then
        some (.hash_mismatch be.file_hash current_hash)
      else none
    | .error _ => none

/-- The `current_paths` set built by `check_integrity` (fim/monitor.py lines
118-129), as a duplicate-free list. -/
def current_paths_list (env : Env) (mp : MonitoredPaths) (fs : FS) :
    List String :=
  (scan_files env mp fs).dedup

/-- The `added_files = current_paths - baseline_paths` loop of
fim/monitor.py lines 132, 135-137. -/
def added_list (env : Env) (mp : MonitoredPaths) (fs : FS) (db : DB) :
    List FileReason :=
  ((current_paths_list env mp fs).filter
      (fun p => !((get_all_baseline_paths_ok db).contains p))).map
    (fun p => { file := p, reason := "New file not in baseline" })

/-- The `deleted_files = baseline_paths - current_paths` loop of
fim/monitor.py lines 133, 139-141. -/
def deleted_list (env : Env) (mp : MonitoredPaths) (fs : FS) (db : DB) :
    List FileReason :=
  ((get_all_baseline_paths_ok db).filter
      (fun p => !((current_paths_list env mp fs).contains p))).map
    (fun p => { file := p, reason := "File deleted from monitored path" })

/-- The `baseline_paths.intersection(current_paths)` iterated at
fim/monitor.py line 144. -/
def inter_list (env : Env) (mp : MonitoredPaths) (fs : FS) (db : DB) :
    List String :=
  (get_all_baseline_paths_ok db).filter
    (fun p => (current_paths_list env mp fs).contains p)

/-- The defensive added-entries of fim/monitor.py lines 150-154: an
intersection path with retrievable metadata but no baseline row. -/
def edge_added_list (env : Env) (mp : MonitoredPaths) (fs : FS) (db : DB) :
    List FileReason :=
  (inter_list env mp fs db).filterMap (fun p =>
    match get_file_metadata fs p with
    | none => none
    | some _ =>
      match get_baseline_entry_ok db p with
      | none =>
        some { file := p, reason := "File exists but is not in baseline" }
      | some _ => none)

/-- The modified-entries produced by the per-path comparison loop of
fim/monitor.py lines 144-174. -/
def modified_list (env : Env) (mp : MonitoredPaths) (fs : FS) (db : DB) :
    List ModEntry :=
  (inter_list env mp fs db).filterMap (fun p =>
    match get_file_metadata fs p with
    | none => none
    | some md =>
      match get_baseline_entry_ok db p with
      | none => none
      | some be =>
        (compare_entry env fs p md be).map
          (fun d => { file := p, detail := d }))

/-- Embedding of `FileIntegrityMonitor.check_integrity` (fim/monitor.py lines
107-177), assembled from the component lists above.  The first store access,
`get_all_baseline_paths`, re-raises `sqlite3.Error`, so on a broken store the
whole call propagates the error; past that point the store is healthy, so the
per-path `get_baseline_entry` calls (which sit outside the per-path `try`
block and would also propagate) never raise, and their value is
`get_baseline_entry_ok`.  Then: `added = current − baseline`,
`deleted = baseline − current`, and each path of the intersection is compared
via `compare_entry`; a path whose metadata is unretrievable is skipped, and a
path whose baseline row is missing is reported as added (the defensive edge
case of lines 150-154, appended to `added` as in the source's loop). -/
def check_integrity (env : Env) (mp : MonitoredPaths) (fs : FS) (db : DB) :
    Except DbError Changes :=
  if db.broken then .error .sqlite_error
  else
    .ok { added := added_list env mp fs db ++ edge_added_list env mp fs db,
          modified := modified_list env mp fs db,
          deleted := deleted_list env mp fs db }

/-- The store operations a monitor run can issue. -/
inductive DbOp where
  | get_all_paths_op
  | get_entry_op (file_path : String)
  | save_op (file_path : String) (e : Entry)
  | remove_op (file_path : String)
deriving DecidableEq, Repr

/-- Whether an operation writes to the store. -/
def DbOp.isWrite : DbOp → Bool
  | .save_op _ _ => true
  | .remove_op _ => true
  | _ => false

/-- The effect of one operation on the store state. -/
def applyDbOp (db : DB) : DbOp → DB
  | .get_all_paths_op => db
  | .get_entry_op _ => db
  | .save_op p e =>
    (save_baseline_entry e.baseline_timestamp db p e.file_hash e.file_size
        e.modification_time e.creation_time e.permissions).1
  | .remove_op p => (remove_baseline_entry db p).1

/-- The sequence of store operations `check_integrity` issues, read off
fim/monitor.py lines 117 and 144-154: one `get_all_baseline_paths`, then — on
a healthy store — one `get_baseline_entry` per intersection path whose
metadata is retrievable (the `continue` at line 147 skips the others before
the store is consulted).  On a broken store the first call raises and nothing
further runs. -/
def check_integrity_trace (env : Env) (mp : MonitoredPaths) (fs : FS)
    (db : DB) : List DbOp :=
  if db.broken then [.get_all_paths_op]
  else
    let baseline_paths := get_all_baseline_paths_ok db
    let current_paths := current_paths_list env mp fs
    let inter := baseline_paths.filter (fun p => current_paths.contains p)
    .get_all_paths_op :: inter.filterMap (fun p =>
      if (get_file_metadata fs p).isSome then some (.get_entry_op p) else none)

/-! ### Helper lemmas about the association-list store -/

/-- Membership in the key list is the same as a successful lookup. -/
lemma mem_keys_iff_lookup_isSome {β : Type} (l : List (String × β)) (p : String) :
    p ∈ l.map Prod.fst ↔ (l.lookup p).isSome := by
  induction l with
  | nil => simp [List.lookup]
  | cons a l ih =>
    by_cases hpa : p = a.1
    · simp [List.lookup, hpa]
    · have hbeq : (p == a.1) = false := by
        simpa using hpa
      simp [List.lookup, hbeq, hpa, ih]

/-- Looking up the upserted key after an `INSERT OR REPLACE` finds the new
row. -/
lemma lookup_upsert_self (l : List (String × Entry)) (p : String) (e : Entry) :
    (l.filter (fun r => r.1 != p) ++ [(p, e)]).lookup p = some e := by
  induction l with
  | nil => simp [List.lookup]
  | cons a l ih =>
    by_cases hpa : a.1 = p
    · have hf : (a.1 != p) = false := by simp [bne, hpa]
      simpa [List.filter_cons, hf] using ih
    · have hf : (a.1 != p) = true := by simp [bne, hpa]
      have hbeq' : (p == a.1) = false := by
        simpa using fun h => hpa h.symm
      simp [List.filter_cons, hf, List.lookup, hbeq', ih]

/-- Looking up any other key after an `INSERT OR REPLACE` is unchanged. -/
lemma lookup_upsert_other (l : List (String × Entry)) (p q : String) (e : Entry)
    (hq : q ≠ p) :
    (l.filter (fun r => r.1 != p) ++ [(p, e)]).lookup q = l.lookup q := by
  induction l with
  | nil =>
    have hbeq : (q == p) = false := by simpa using hq
    simp [List.lookup, hbeq]
  | cons a l ih =>
    by_cases hpa : a.1 = p
    · have hf : (a.1 != p) = false := by simp [bne, hpa]
      have hbeq : (q == a.1) = false := by
        simpa using fun h => hq (h.trans hpa)
      simp [List.filter_cons, hf, List.lookup, hbeq, ih]
    · have hf : (a.1 != p) = true := by simp [bne, hpa]
      by_cases hqa : q = a.1
      · simp [List.filter_cons, hf, List.lookup, hqa]
      · have hbeq' : (q == a.1) = false := by simpa using hqa
        simp [List.filter_cons, hf, List.lookup, hbeq', ih]

/-- `List.contains` on strings is plain membership. -/
lemma contains_iff_mem (l : List String) (a : String) :
    l.contains a = true ↔ a ∈ l := by
  simp [List.contains]

/-- Boolean negation as used in the set-difference filters. -/
lemma bnot_eq_true_iff (b : Bool) : (!b) = true ↔ b = false := by
  cases b <;> simp

/-- A failed `List.contains` on strings is plain non-membership. -/
lemma contains_eq_false_iff (l : List String) (a : String) :
    l.contains a = false ↔ a ∉ l := by
  constructor
  · intro h hmem
    rw [(contains_iff_mem l a).mpr hmem] at h
    cases h
  · intro h
    cases hc : l.contains a with
    | false => rfl
    | true => exact absurd ((contains_iff_mem l a).mp hc) h

/-- Unpacking a successful `check_integrity` call: the store was healthy and
the report is the assembled record. -/
lemma check_integrity_ok {env : Env} {mp : MonitoredPaths} {fs : FS} {db : DB}
    {ch : Changes} (h : check_integrity env mp fs db = .ok ch) :
    db.broken = false ∧
      ch = { added := added_list env mp fs db ++ edge_added_list env mp fs db,
             modified := modified_list env mp fs db,
             deleted := deleted_list env mp fs db } := by
  by_cases hb : db.broken
  · simp [check_integrity, hb] at h
  · unfold check_integrity at h
    rw [if_neg hb] at h
    refine ⟨by simpa using hb, ?_⟩
    injection h with h2
    exact h2.symm

/-- A `filterMap` whose results are stamped with their source path yields at
most as many entries for a given path as the source list has copies of it. -/
lemma countP_file_filterMap_le (l : List String) (g : String → Option ModEntry)
    (hg : ∀ q e, g q = some e → e.file = q) (p : String) :
    (l.filterMap g).countP (fun e => e.file == p) ≤
      l.countP (fun q => q == p) := by
  induction l with
  | nil => simp
  | cons a l ih =>
    rw [List.filterMap_cons]
    cases hga : g a with
    | none =>
      rw [List.countP_cons]
      exact le_trans ih (Nat.le_add_right _ _)
    | some e =>
      rw [List.countP_cons, List.countP_cons]
      have hfile : e.file = a := hg a e hga
      simp only [hfile]
      exact Nat.add_le_add_right ih _

/-- Every entry the modification loop produces is stamped with the path it
was produced for. -/
lemma modified_list_file_eq (env : Env) (mp : MonitoredPaths) (fs : FS)
    (db : DB) (q : String) (e : ModEntry)
    (h : (fun p =>
      match get_file_metadata fs p with
      | none => none
      | some md =>
        match get_baseline_entry_ok db p with
        | none => none
        | some be =>
          (compare_entry env fs p md be).map
            (fun d => ({ file := p, detail := d } : ModEntry))) q = some e) :
    e.file = q := by
  dsimp only at h
  rcases hmd : get_file_metadata fs q with _ | md
  · simp [hmd] at h
  · rcases hbe : get_baseline_entry_ok db q with _ | be
    · simp [hmd, hbe] at h
    · rcases hc : compare_entry env fs q md be with _ | d
      · simp [hmd, hbe, hc] at h
      · simp [hmd, hbe, hc] at h
        rw [← h]

/-- The baseline entry `create_baseline` stores for a path, when its per-file
processing succeeds: digest computed without an exception, metadata
retrievable, digest non-empty (the `if metadata and file_hash` guard). -/
def mkEntry (env : Env) (fs : FS) (p : String) : Option Entry :=
  match calculate_file_hash env.hashEnv fs p env.HASH_ALGORITHM with
  | .error _ => none
  | .ok h =>
    match get_file_metadata fs p with
    | none => none
    | some md =>
      if h = "" then none
      else
        some { file_path := p, file_hash := h, file_size := md.file_size,
               modification_time := md.modification_time,
               creation_time := md.creation_time,
               permissions := md.permissions, baseline_timestamp := env.now }

/-- The per-file step saves exactly `mkEntry` when it is defined and skips
otherwise. -/
lemma process_file_eq (env : Env) (fs : FS) (acc : DB × Nat) (p : String) :
    process_file env fs acc p =
      match mkEntry env fs p with
      | none => acc
      | some e =>
        ((save_baseline_entry env.now acc.1 p e.file_hash e.file_size
            e.modification_time e.creation_time e.permissions).1, acc.2 + 1) := by
  rcases hc : calculate_file_hash env.hashEnv fs p env.HASH_ALGORITHM with e | h
  · simp [process_file, mkEntry, hc]
  · rcases hmd : get_file_metadata fs p with _ | md
    · simp [process_file, mkEntry, hc, hmd]
    · by_cases hh : h = ""
      · simp [process_file, mkEntry, hc, hmd, hh]
      · simp [process_file, mkEntry, hc, hmd, hh]

/-- The final `monitored_count` of the baseline fold counts the scanned files
whose per-file processing succeeded. -/
lemma foldl_process_file_count (env : Env) (fs : FS) (l : List String) :
    ∀ (db : DB) (c : Nat),
      (l.foldl (process_file env fs) (db, c)).2 =
        c + (l.filter (fun p => (mkEntry env fs p).isSome)).length := by
  induction l with
  | nil => intro db c; simp
  | cons a l ih =>
    intro db c
    rw [List.foldl_cons, process_file_eq]
    rcases hm : mkEntry env fs a with _ | e
    · rw [List.filter_cons]
      simp only [hm, Option.isSome_none, Bool.false_eq_true, if_false]
      exact ih db c
    · rw [List.filter_cons]
      simp only [hm, Option.isSome_some, if_true]
      rw [ih]
      simp only [List.length_cons]
      omega

/-- The defensive added-branch of the modification loop never fires: a path
enumerated by `get_all_baseline_paths` always has a stored row. -/
lemma edge_added_list_nil (env : Env) (mp : MonitoredPaths) (fs : FS)
    (db : DB) : edge_added_list env mp fs db = [] := by
  rw [edge_added_list, List.filterMap_eq_nil_iff]
  intro p hp
  rcases hmd : get_file_metadata fs p with _ | md
  · simp [hmd]
  · have hpb : p ∈ get_all_baseline_paths_ok db := by
      rw [inter_list] at hp
      exact (List.mem_filter.mp hp).1
    have hsome : (get_baseline_entry_ok db p).isSome := by
      rw [get_baseline_entry_ok]
      exact (mem_keys_iff_lookup_isSome _ _).mp hpb
    obtain ⟨be, hbe⟩ := Option.isSome_iff_exists.mp hsome
    simp [hmd, hbe]

/-- Unpacking a defined `mkEntry`: the digest and metadata calls succeeded,
the digest is non-empty, and the entry is built from their results. -/
lemma mkEntry_some (env : Env) (fs : FS) (p : String) (e : Entry)
    (hm : mkEntry env fs p = some e) :
    ∃ h md, calculate_file_hash env.hashEnv fs p env.HASH_ALGORITHM = .ok h ∧
      get_file_metadata fs p = some md ∧ h ≠ "" ∧
      e = { file_path := p, file_hash := h, file_size := md.file_size,
            modification_time := md.modification_time,
            creation_time := md.creation_time, permissions := md.permissions,
            baseline_timestamp := env.now } := by
  unfold mkEntry at hm
  rcases hc : calculate_file_hash env.hashEnv fs p env.HASH_ALGORITHM with er | h
  · simp [hc] at hm
  · rcases hmd : get_file_metadata fs p with _ | md
    · simp [hc, hmd] at hm
    · by_cases hh : h = ""
      · simp [hc, hmd, hh] at hm
      · simp only [hc, hmd, hh, if_false] at hm
        exact ⟨h, md, rfl, rfl, hh, by
          injection hm with hm'
          exact hm'.symm⟩

/-- A per-file step that fails skips the file entirely. -/
lemma process_file_none (env : Env) (fs : FS) (db : DB) (c : Nat) (a : String)
    (hm : mkEntry env fs a = none) :
    process_file env fs (db, c) a = (db, c) := by
  rw [process_file_eq, hm]

/-- A per-file step that succeeds on a healthy store upserts exactly
`mkEntry` and bumps the count. -/
lemma process_file_some (env : Env) (fs : FS) (db : DB) (c : Nat) (a : String)
    (e : Entry) (hb : db.broken = false) (hm : mkEntry env fs a = some e) :
    process_file env fs (db, c) a =
      ({ db with rows := db.rows.filter (fun r => r.1 != a) ++ [(a, e)] },
       c + 1) := by
  obtain ⟨h, md, hc, hmd, hh, he⟩ := mkEntry_some env fs a e hm
  subst he
  simp [process_file, hc, hmd, hh, save_baseline_entry, hb]

/-- The baseline fold never changes the store's health flag. -/
lemma foldl_process_file_broken (env : Env) (fs : FS) (l : List String) :
    ∀ (db : DB) (c : Nat),
      ((l.foldl (process_file env fs) (db, c)).1).broken = db.broken := by
  induction l with
  | nil => intro db c; rfl
  | cons a l ih =>
    intro db c
    rw [List.foldl_cons, process_file_eq]
    rcases hm : mkEntry env fs a with _ | e
    · exact ih db c
    · rw [ih]
      by_cases hb : db.broken <;> simp [save_baseline_entry, hb]

/-- Lookup after the baseline fold on a healthy store: a scanned path whose
per-file processing succeeds maps to its fresh entry (the last write wins and
all writes for one path are identical), every other path is untouched. -/
lemma foldl_process_file_lookup (env : Env) (fs : FS) (l : List String) :
    ∀ (db : DB) (c : Nat) (p : String), db.broken = false →
      ((l.foldl (process_file env fs) (db, c)).1).rows.lookup p =
        if p ∈ l ∧ (mkEntry env fs p).isSome then mkEntry env fs p
        else db.rows.lookup p := by
  induction l with
  | nil => intro db c p hb; simp
  | cons a l ih =>
    intro db c p hb
    rw [List.foldl_cons]
    rcases hm : mkEntry env fs a with _ | e
    · rw [process_file_none env fs db c a hm, ih db c p hb]
      by_cases hpl : p ∈ l ∧ (mkEntry env fs p).isSome
      · rw [if_pos hpl, if_pos ⟨List.mem_cons_of_mem a hpl.1, hpl.2⟩]
      · rw [if_neg hpl, if_neg]
        rintro ⟨hpm, hps⟩
        rcases List.mem_cons.mp hpm with rfl | hpm'
        · rw [hm] at hps; cases hps
        · exact hpl ⟨hpm', hps⟩
    · rw [process_file_some env fs db c a e hb hm]
      have hb' : ({ db with
          rows := db.rows.filter (fun r => r.1 != a) ++ [(a, e)] } : DB).broken
            = false := hb
      rw [ih _ (c + 1) p hb']
      by_cases hpl : p ∈ l ∧ (mkEntry env fs p).isSome
      · rw [if_pos hpl, if_pos ⟨List.mem_cons_of_mem a hpl.1, hpl.2⟩]
      · rw [if_neg hpl]
        by_cases hpa : p = a
        · subst hpa
          rw [if_pos ⟨List.mem_cons_self p l, by rw [hm]; rfl⟩]
          rw [hm]
          exact lookup_upsert_self db.rows p e
        · rw [if_neg, lookup_upsert_other db.rows a p e hpa]
          rintro ⟨hpm, hps⟩
          rcases List.mem_cons.mp hpm with rfl | hpm'
          · exact hpa rfl
          · exact hpl ⟨hpm', hps⟩

/-- A path never visited by the baseline fold keeps its stored row (healthy
or broken store alike). -/
lemma foldl_process_file_lookup_not_mem (env : Env) (fs : FS) (l : List String) :
    ∀ (db : DB) (c : Nat) (p : String), p ∉ l →
      ((l.foldl (process_file env fs) (db, c)).1).rows.lookup p =
        db.rows.lookup p := by
  induction l with
  | nil => intro db c p _; rfl
  | cons a l ih =>
    intro db c p hp
    have hpa : p ≠ a := fun h => hp (h ▸ List.mem_cons_self a l)
    have hpl : p ∉ l := fun h => hp (List.mem_cons_of_mem a h)
    rw [List.foldl_cons, process_file_eq]
    rcases hm : mkEntry env fs a with _ | e
    · exact ih db c p hpl
    · rw [ih _ (c + 1) p hpl]
      by_cases hb : db.broken
      · simp [save_baseline_entry, hb]
      · simp only [save_baseline_entry, hb, Bool.false_eq_true, if_false]
        exact lookup_upsert_other db.rows a p _ hpa

/-- Every scanned file is present on the filesystem (the walk enumerates
stored paths). -/
lemma mem_fs_of_mem_scan (env : Env) (mp : MonitoredPaths) (fs : FS)
    (p : String) (h : p ∈ scan_files env mp fs) :
    p ∈ fs.files.map Prod.fst := by
  rw [scan_files] at h
  obtain ⟨root, _, hp⟩ := List.mem_flatMap.mp h
  have hw := (List.mem_filter.mp hp).1
  rw [walk_files] at hw
  exact (List.mem_filter.mp hw).1

/-- A path under an exclude prefix is rejected by `_is_path_monitored` and
therefore never enumerated by the traversal. -/
lemma not_mem_scan_of_excluded (env : Env) (mp : MonitoredPaths) (fs : FS)
    (p : String)
    (he : ∃ e ∈ mp.exclude_paths, startswith (env.abspath e) p = true) :
    p ∉ scan_files env mp fs := by
  intro hmem
  rw [scan_files] at hmem
  obtain ⟨root, _, hp⟩ := List.mem_flatMap.mp hmem
  have hmon := (List.mem_filter.mp hp).2
  obtain ⟨e, hee, hpre⟩ := he
  have hany : mp.exclude_paths.any (fun e => startswith (env.abspath e) p) = true :=
    List.any_eq_true.mpr ⟨e, hee, hpre⟩
  rw [is_path_monitored, if_pos hany] at hmon
  cases hmon

/-- The added entries are exactly the current paths missing from the
baseline. -/
lemma mem_added_list_iff (env : Env) (mp : MonitoredPaths) (fs : FS) (db : DB)
    (p : String) :
    (∃ e ∈ added_list env mp fs db, e.file = p) ↔
      (p ∈ current_paths_list env mp fs ∧
        p ∉ get_all_baseline_paths_ok db) := by
  simp only [added_list, List.mem_map, List.mem_filter]
  constructor
  · rintro ⟨e, ⟨q, ⟨hqc, hqb⟩, rfl⟩, hfile⟩
    subst hfile
    exact ⟨hqc, fun hmem =>
      (contains_eq_false_iff _ _).mp ((bnot_eq_true_iff _).mp hqb) hmem⟩
  · rintro ⟨hc, hnb⟩
    exact ⟨{ file := p, reason := "New file not in baseline" },
      ⟨p, ⟨hc, (bnot_eq_true_iff _).mpr
        ((contains_eq_false_iff _ _).mpr hnb)⟩, rfl⟩, rfl⟩

/-- The deleted entries are exactly the baseline paths missing from the
current walk. -/
lemma mem_deleted_list_iff (env : Env) (mp : MonitoredPaths) (fs : FS)
    (db : DB) (p : String) :
    (∃ e ∈ deleted_list env mp fs db, e.file = p) ↔
      (p ∈ get_all_baseline_paths_ok db ∧
        p ∉ current_paths_list env mp fs) := by
  simp only [deleted_list, List.mem_map, List.mem_filter]
  constructor
  · rintro ⟨e, ⟨q, ⟨hqb, hqc⟩, rfl⟩, hfile⟩
    subst hfile
    exact ⟨hqb, fun hmem =>
      (contains_eq_false_iff _ _).mp ((bnot_eq_true_iff _).mp hqc) hmem⟩
  · rintro ⟨hbm, hnc⟩
    exact ⟨{ file := p, reason := "File deleted from monitored path" },
      ⟨p, ⟨hbm, (bnot_eq_true_iff _).mpr
        ((contains_eq_false_iff _ _).mpr hnc)⟩, rfl⟩, rfl⟩

/-- Every modified entry's path lies in both the baseline and the current
walk. -/
lemma mem_modified_list (env : Env) (mp : MonitoredPaths) (fs : FS) (db : DB)
    (e : ModEntry) (h : e ∈ modified_list env mp fs db) :
    e.file ∈ get_all_baseline_paths_ok db ∧
      e.file ∈ current_paths_list env mp fs := by
  rw [modified_list] at h
  obtain ⟨q, hq, hg⟩ := List.mem_filterMap.mp h
  have hf : e.file = q := modified_list_file_eq env mp fs db q e hg
  rw [inter_list] at hq
  have hq' := List.mem_filter.mp hq
  rw [hf]
  exact ⟨hq'.1, (contains_iff_mem _ _).mp hq'.2⟩

/-- Reading the path back out of the added/deleted report entries recovers
the underlying path list. -/
lemma map_file_map_mk (l : List String) (r : String) :
    ((l.map (fun p => ({ file := p, reason := r } : FileReason))).map
      (fun e => e.file)) = l := by
  induction l with
  | nil => rfl
  | cons a l ih => simp only [List.map_cons, ih]

/-- A `filterMap` whose results are stamped with their distinct source paths
has pairwise-distinct stamped paths. -/
lemma nodup_filterMap_file (l : List String) (g : String → Option ModEntry)
    (hg : ∀ q e, g q = some e → e.file = q) (hl : l.Nodup) :
    ((l.filterMap g).map (fun e => e.file)).Nodup := by
  induction l with
  | nil => simp
  | cons a l ih =>
    obtain ⟨ha, hl'⟩ := List.nodup_cons.mp hl
    rw [List.filterMap_cons]
    cases hga : g a with
    | none => exact ih hl'
    | some e =>
      rw [List.map_cons, List.nodup_cons]
      refine ⟨fun hmem => ?_, ih hl'⟩
      obtain ⟨e', he', hfe⟩ := List.mem_map.mp hmem
      obtain ⟨q, hq, hgq⟩ := List.mem_filterMap.mp he'
      have h1 : e'.file = q := hg q e' hgq
      have h2 : e.file = a := hg a e hga
      rw [h1, h2] at hfe
      exact ha (hfe ▸ hq)

/-- Only read operations leave the store unchanged trivially; this spells the
case split out. -/
lemma applyDbOp_read (db : DB) (op : DbOp) (h : op.isWrite = false) :
    applyDbOp db op = db := by
  cases op with
  | get_all_paths_op => rfl
  | get_entry_op p => rfl
  | save_op p e => simp [DbOp.isWrite] at h
  | remove_op p => simp [DbOp.isWrite] at h

/-- Folding a trace of pure reads over the store is the identity. -/
lemma foldl_applyDbOp_reads (l : List DbOp) :
    ∀ (db : DB), (∀ op ∈ l, op.isWrite = false) → l.foldl applyDbOp db = db := by
  induction l with
  | nil => intro db _; rfl
  | cons a l ih =>
    intro db h
    rw [List.foldl_cons, applyDbOp_read db a (h a (List.mem_cons_self a l))]
    exact ih db (fun op hop => h op (List.mem_cons_of_mem a hop))

/-! ### Concrete fixtures used by witnesses and counterexamples -/

/-- A concrete file. -/
def fdA : FileData :=
  { content := [104, 105], st_size := 2, st_mtime := 10, st_ctime := 11,
    st_mode := 0o644 }

/-- A concrete one-file filesystem. -/
def fsA : FS := { files := [("/m/a.txt", fdA)], dirs := ["/m"] }

/-- A concrete hashing environment with a constant, non-empty digest. -/
def henvA : HashEnv :=
  { algorithms_available := ["sha256", "sha512", "md5"], hashFn := fun _ _ => "d" }

/-- A concrete monitor environment. -/
def envA : Env :=
  { hashEnv := henvA, HASH_ALGORITHM := "sha256", abspath := id, now := 100 }

/-- A concrete include-only configuration. -/
def mpA : MonitoredPaths := { include_paths := ["/m"], exclude_paths := [] }

/-- The metadata of `fdA`. -/
def mdA : Metadata :=
  { file_path := "/m/a.txt", file_size := 2, modification_time := 10,
    creation_time := 11, permissions := 0o644 }

/-- A concrete baseline row whose size disagrees with `fdA`. -/
def beA : Entry :=
  { file_path := "/m/a.txt", file_hash := "d", file_size := 3,
    modification_time := 10, creation_time := 11, permissions := 0o644,
    baseline_timestamp := 100 }

/-- A concrete baseline row for a path that no longer exists on `fsA`. -/
def beG : Entry :=
  { file_path := "/gone.txt", file_hash := "d", file_size := 1,
    modification_time := 1, creation_time := 1, permissions := 0o644,
    baseline_timestamp := 1 }

/-! ### Claim theorems -/

/-- C5: `_is_path_monitored` returns false as soon as any (resolved) exclude
entry is a raw string prefix of the path, this taking precedence over the
include list; otherwise it returns true iff some (resolved) include entry is
a raw string prefix; with both lists empty everything is unmonitored; and the
matching has no separator-boundary check, so an include of `/var/log` also
matches `/var/log2/x`. -/
theorem is_path_monitored_spec (abspath : String → String) (mp : MonitoredPaths)
    (p : String) :
    ((∃ e ∈ mp.exclude_paths, startswith (abspath e) p = true) →
      is_path_monitored abspath mp p = false)
  ∧ ((∀ e ∈ mp.exclude_paths, startswith (abspath e) p = false) →
      (is_path_monitored abspath mp p = true ↔
        ∃ i ∈ mp.include_paths, startswith (abspath i) p = true))
  ∧ (mp.include_paths = [] → mp.exclude_paths = [] →
      is_path_monitored abspath mp p = false)
  ∧ is_path_monitored id { include_paths := ["/var/log"], exclude_paths := [] }
      "/var/log2/x" = true := by
  refine ⟨?_, ?_, ?_, by decide⟩
  · rintro ⟨e, he, hpre⟩
    have hany : mp.exclude_paths.any (fun e => startswith (abspath e) p) = true :=
      List.any_eq_true.mpr ⟨e, he, hpre⟩
    simp [is_path_monitored, hany]
  · intro hnone
    have hany : mp.exclude_paths.any (fun e => startswith (abspath e) p) = false := by
      rw [List.any_eq_false]
      intro e he
      simp [hnone e he]
    simp [is_path_monitored, hany, List.any_eq_true]
  · intro hi he
    simp [is_path_monitored, hi, he]

/-- C5 witness: a file under the exclude prefix is rejected even though it is
under an include prefix, a sibling file is accepted, and an empty
configuration monitors nothing. -/
theorem is_path_monitored_spec_witness :
    is_path_monitored id { include_paths := ["/m"], exclude_paths := ["/m/ex"] }
      "/m/ex/a.txt" = false
  ∧ is_path_monitored id { include_paths := ["/m"], exclude_paths := ["/m/ex"] }
      "/m/b.txt" = true
  ∧ is_path_monitored id { include_paths := [], exclude_paths := [] }
      "/m/b.txt" = false := by
  have h1 := is_path_monitored_spec id
    { include_paths := ["/m"], exclude_paths := ["/m/ex"] } "/m/ex/a.txt"
  have h2 := is_path_monitored_spec id
    { include_paths := ["/m"], exclude_paths := ["/m/ex"] } "/m/b.txt"
  have h3 := is_path_monitored_spec id
    { include_paths := [], exclude_paths := [] } "/m/b.txt"
  refine ⟨h1.1 ⟨"/m/ex", by decide, by decide⟩, ?_, h3.2.2.1 rfl rfl⟩
  exact (h2.2.1 (by decide)).mpr ⟨"/m", by decide, by decide⟩

/-- C6: `calculate_file_hash` raises `FileNotFoundError` when the path does
not exist at call time; on an existing path it raises `ValueError` exactly
when the lower-cased algorithm name is not among the available algorithms; so
with the guaranteed algorithms present, `SHA256`/`sha256`, `SHA512`/`sha512`
and `MD5`/`md5` all succeed on an existing file (case-insensitive name
matching). -/
theorem calculate_file_hash_errors (henv : HashEnv) (fs : FS) (p alg : String)
    (hmin : "sha256" ∈ henv.algorithms_available ∧
      "sha512" ∈ henv.algorithms_available ∧ "md5" ∈ henv.algorithms_available) :
    (os_path_exists fs p = false →
      calculate_file_hash henv fs p alg = .error .FileNotFoundError)
  ∧ (os_path_exists fs p = true →
      (calculate_file_hash henv fs p alg = .error .ValueError ↔
        str_lower alg ∉ henv.algorithms_available))
  ∧ (os_path_exists fs p = true →
      (calculate_file_hash henv fs p "SHA256").isOk = true
    ∧ (calculate_file_hash henv fs p "sha256").isOk = true
    ∧ (calculate_file_hash henv fs p "SHA512").isOk = true
    ∧ (calculate_file_hash henv fs p "sha512").isOk = true
    ∧ (calculate_file_hash henv fs p "MD5").isOk = true
    ∧ (calculate_file_hash henv fs p "md5").isOk = true) := by
  obtain ⟨h256, h512, hmd5⟩ := hmin
  cases hl : fs.files.lookup p with
  | none =>
    refine ⟨fun _ => ?_, fun htrue => ?_, fun htrue => ?_⟩
    · simp [calculate_file_hash, hl]
    · exact absurd htrue (by simp [os_path_exists, hl])
    · exact absurd htrue (by simp [os_path_exists, hl])
  | some fd =>
    have hex : os_path_exists fs p = true := by simp [os_path_exists, hl]
    refine ⟨fun hfalse => absurd hex (by simp [hfalse]), fun _ => ?_, fun _ => ?_⟩
    · by_cases hmem : str_lower alg ∈ henv.algorithms_available
      · have hc : henv.algorithms_available.contains (str_lower alg) = true :=
          (contains_iff_mem _ _).mpr hmem
        simp [calculate_file_hash, hl, hc, hmem]
      · have hc : henv.algorithms_available.contains (str_lower alg) = false := by
          rw [Bool.eq_false_iff]
          intro hcon
          exact hmem ((contains_iff_mem _ _).mp hcon)
        simp [calculate_file_hash, hl, hc, hmem]
    · have hok : ∀ a : String, str_lower a ∈ henv.algorithms_available →
          (calculate_file_hash henv fs p a).isOk = true := by
        intro a hmem
        have hc : henv.algorithms_available.contains (str_lower a) = true :=
          (contains_iff_mem _ _).mpr hmem
        simp [calculate_file_hash, hl, hc, hmem, Except.isOk, Except.toBool]
      refine ⟨hok _ ?_, hok _ ?_, hok _ ?_, hok _ ?_, hok _ ?_, hok _ ?_⟩
      · simpa [show str_lower "SHA256" = "sha256" from by decide] using h256
      · simpa [show str_lower "sha256" = "sha256" from by decide] using h256
      · simpa [show str_lower "SHA512" = "sha512" from by decide] using h512
      · simpa [show str_lower "sha512" = "sha512" from by decide] using h512
      · simpa [show str_lower "MD5" = "md5" from by decide] using hmd5
      · simpa [show str_lower "md5" = "md5" from by decide] using hmd5

/-- C6 witness: on a one-file filesystem with the three guaranteed
algorithms, a missing path raises `FileNotFoundError`, a bogus algorithm
raises `ValueError`, and `SHA256`/`sha256` both succeed. -/
theorem calculate_file_hash_errors_witness :
    calculate_file_hash
      { algorithms_available := ["sha256", "sha512", "md5"], hashFn := fun _ _ => "d" }
      { files := [("/m/a.txt",
          { content := [104], st_size := 1, st_mtime := 5, st_ctime := 6,
            st_mode := 0o100644 })], dirs := ["/m"] }
      "/m/missing.txt" "sha256" = .error .FileNotFoundError
  ∧ calculate_file_hash
      { algorithms_available := ["sha256", "sha512", "md5"], hashFn := fun _ _ => "d" }
      { files := [("/m/a.txt",
          { content := [104], st_size := 1, st_mtime := 5, st_ctime := 6,
            st_mode := 0o100644 })], dirs := ["/m"] }
      "/m/a.txt" "whirlpoolX" = .error .ValueError
  ∧ (calculate_file_hash
      { algorithms_available := ["sha256", "sha512", "md5"], hashFn := fun _ _ => "d" }
      { files := [("/m/a.txt",
          { content := [104], st_size := 1, st_mtime := 5, st_ctime := 6,
            st_mode := 0o100644 })], dirs := ["/m"] }
      "/m/a.txt" "SHA256").isOk = true := by
  have h := calculate_file_hash_errors
    { algorithms_available := ["sha256", "sha512", "md5"], hashFn := fun _ _ => "d" }
    { files := [("/m/a.txt",
        { content := [104], st_size := 1, st_mtime := 5, st_ctime := 6,
          st_mode := 0o100644 })], dirs := ["/m"] }
    "/m/missing.txt" "sha256" (by refine ⟨?_, ?_, ?_⟩ <;> decide)
  have h2 := calculate_file_hash_errors
    { algorithms_available := ["sha256", "sha512", "md5"], hashFn := fun _ _ => "d" }
    { files := [("/m/a.txt",
        { content := [104], st_size := 1, st_mtime := 5, st_ctime := 6,
          st_mode := 0o100644 })], dirs := ["/m"] }
    "/m/a.txt" "whirlpoolX" (by refine ⟨?_, ?_, ?_⟩ <;> decide)
  refine ⟨h.1 (by decide), (h2.2.1 (by decide)).mpr (by decide), (h2.2.2 (by decide)).1⟩

/-- C1: the per-path comparison is ordered and short-circuited on the first
mismatch, priority size → mtime → permission bits → digest: a size mismatch
is reported with the old and new size without consulting anything else; the
mtime is compared only at equal sizes, the permission bits only at equal size
and mtime, and the digest is recomputed and compared only when size, mtime,
and permission bits all match the baseline; and within one `check_integrity`
report a path receives at most one modified entry. -/
theorem check_modifications_ordered (env : Env) (mp : MonitoredPaths) (fs : FS)
    (db : DB) (p : String) (md : Metadata) (be : Entry) (hwf : db.wf) :
    (md.file_size ≠ be.file_size →
      compare_entry env fs p md be =
        some (.size_mismatch be.file_size md.file_size))
  ∧ (md.file_size = be.file_size →
     md.modification_time ≠ be.modification_time →
      compare_entry env fs p md be =
        some (.mtime_mismatch be.modification_time md.modification_time))
  ∧ (md.file_size = be.file_size →
     md.modification_time = be.modification_time →
     md.permissions ≠ be.permissions →
      compare_entry env fs p md be =
        some (.permissions_mismatch be.permissions md.permissions))
  ∧ (md.file_size = be.file_size →
     md.modification_time = be.modification_time →
     md.permissions = be.permissions →
      compare_entry env fs p md be =
        (match calculate_file_hash env.hashEnv fs p env.HASH_ALGORITHM with
         | .ok current_hash =>
           if current_hash ≠ be.file_hash then
             some (.hash_mismatch be.file_hash current_hash)
           else none
         | .error _ => none))
  ∧ (∀ ch, check_integrity env mp fs db = .ok ch →
      ch.modified.countP (fun e => e.file == p) ≤ 1) := by
  refine ⟨?_, ?_, ?_, ?_, ?_⟩
  · intro h1; simp [compare_entry, h1]
  · intro h1 h2; simp [compare_entry, h1, h2]
  · intro h1 h2 h3; simp [compare_entry, h1, h2, h3]
  · intro h1 h2 h3; simp [compare_entry, h1, h2, h3]
  · intro ch hch
    obtain ⟨hb, hch'⟩ := check_integrity_ok hch
    subst hch'
    have hle := countP_file_filterMap_le (inter_list env mp fs db) _
      (modified_list_file_eq env mp fs db) p
    have hcount : (inter_list env mp fs db).countP (fun q => q == p) ≤ 1 := by
      have hnodup : (inter_list env mp fs db).Nodup :=
        List.Nodup.filter _ hwf
      have := List.nodup_iff_count_le_one.mp hnodup p
      simpa [List.count] using this
    exact le_trans hle hcount

/-- C1 witness: a baseline row recording size 3 against a current size of 2
yields exactly the size-mismatch entry carrying old size 3 and new size 2. -/
theorem check_modifications_ordered_witness :
    compare_entry envA fsA "/m/a.txt" mdA beA =
      some (ModDetail.size_mismatch 3 2) := by
  have h := check_modifications_ordered envA mpA fsA emptyDB "/m/a.txt" mdA beA
    (by simp [DB.wf, emptyDB])
  exact h.1 (by decide)

/-- C3 counterexample: on a store in a failing state, `save_baseline_entry`
lets no exception escape to its caller (its `except sqlite3.Error` block only
logs) and the entry is silently not written — contradicting the claim that
storage failures during the write propagate as a `StorageError`. -/
theorem save_baseline_entry_silent_failure :
    (save_baseline_entry 0 { rows := [], broken := true } "/m/a.txt" "d"
        1 2 3 4).2 = none
  ∧ (save_baseline_entry 0 { rows := [], broken := true } "/m/a.txt" "d"
        1 2 3 4).1 = { rows := [], broken := true } :=
  ⟨rfl, rfl⟩

/-- C3 amended: `save_baseline_entry` never propagates an error to its caller
(storage failures are caught and logged, so the failure is silent and the
entry is lost); on a healthy store the write is an upsert — the saved path
maps to the new entry stamped with `recordedAt = now`, every other path is
untouched, and the stored path set gains exactly the saved path; on a broken
store nothing is written. -/
theorem save_baseline_entry_amended (now : Int) (db : DB) (p h : String)
    (sz : Nat) (mt ct : Int) (pm : Nat) :
    (save_baseline_entry now db p h sz mt ct pm).2 = none
  ∧ (db.broken = false →
      get_baseline_entry_ok (save_baseline_entry now db p h sz mt ct pm).1 p =
        some { file_path := p, file_hash := h, file_size := sz,
               modification_time := mt, creation_time := ct,
               permissions := pm, baseline_timestamp := now }
    ∧ (∀ q, q ≠ p →
        get_baseline_entry_ok (save_baseline_entry now db p h sz mt ct pm).1 q =
          get_baseline_entry_ok db q)
    ∧ (∀ q, q ∈ get_all_baseline_paths_ok
          (save_baseline_entry now db p h sz mt ct pm).1 ↔
        (q = p ∨ q ∈ get_all_baseline_paths_ok db)))
  ∧ (db.broken = true →
      (save_baseline_entry now db p h sz mt ct pm).1 = db) := by
  refine ⟨?_, ?_, ?_⟩
  · by_cases hb : db.broken <;> simp [save_baseline_entry, hb]
  · intro hb
    refine ⟨?_, ?_, ?_⟩
    · simp only [save_baseline_entry, hb, Bool.false_eq_true, if_false,
        get_baseline_entry_ok]
      exact lookup_upsert_self db.rows p _
    · intro q hq
      simp only [save_baseline_entry, hb, Bool.false_eq_true, if_false,
        get_baseline_entry_ok]
      exact lookup_upsert_other db.rows p q _ hq
    · intro q
      rw [get_all_baseline_paths_ok, get_all_baseline_paths_ok,
        mem_keys_iff_lookup_isSome, mem_keys_iff_lookup_isSome]
      by_cases hq : q = p
      · subst hq
        simp only [save_baseline_entry, hb, Bool.false_eq_true, if_false]
        simp [lookup_upsert_self db.rows q]
      · simp only [save_baseline_entry, hb, Bool.false_eq_true, if_false]
        rw [lookup_upsert_other db.rows p q _ hq]
        simp [hq]
  · intro hb
    simp [save_baseline_entry, hb]

/-- C3 amended witness: overwriting the existing row for `/m/a.txt` on a
healthy store propagates no error and leaves the path mapped to the new
entry, stamped with the current time 9. -/
theorem save_baseline_entry_amended_witness :
    (save_baseline_entry 9 { rows := [("/m/a.txt", beA)], broken := false }
        "/m/a.txt" "d2" 5 6 7 8).2 = none
  ∧ get_baseline_entry_ok
      (save_baseline_entry 9 { rows := [("/m/a.txt", beA)], broken := false }
        "/m/a.txt" "d2" 5 6 7 8).1 "/m/a.txt" =
      some { file_path := "/m/a.txt", file_hash := "d2", file_size := 5,
             modification_time := 6, creation_time := 7, permissions := 8,
             baseline_timestamp := 9 } := by
  have h := save_baseline_entry_amended 9
    { rows := [("/m/a.txt", beA)], broken := false } "/m/a.txt" "d2" 5 6 7 8
  exact ⟨h.1, (h.2.1 rfl).1⟩

/-- C2 counterexample: on a concrete run producing one added and one deleted
entry, the emitted reason strings are `New file not in baseline` and
`File deleted from monitored path` — not the claimed all-lower-case
`new file not in baseline` / `file deleted from monitored path`. -/
theorem added_deleted_reasons_counterexample :
    check_integrity envA mpA fsA { rows := [("/gone.txt", beG)], broken := false } =
      .ok { added := [{ file := "/m/a.txt", reason := "New file not in baseline" }],
            modified := [],
            deleted := [{ file := "/gone.txt",
                          reason := "File deleted from monitored path" }] }
  ∧ ("New file not in baseline" : String) ≠ "new file not in baseline"
  ∧ ("File deleted from monitored path" : String) ≠
      "file deleted from monitored path" := by
  refine ⟨rfl, by decide, by decide⟩

/-- C2 amended: the added entries are exactly the current-walk paths missing
from the baseline, each with reason `New file not in baseline`, and the
deleted entries are exactly the baseline paths missing from the current walk,
each with reason `File deleted from monitored path` (the reasons are
capitalized as in the code, unlike the claim's wording). -/
theorem added_deleted_sets (env : Env) (mp : MonitoredPaths) (fs : FS)
    (db : DB) (ch : Changes) (h : check_integrity env mp fs db = .ok ch) :
    (∀ p, (∃ e ∈ ch.added, e.file = p) ↔
      (p ∈ current_paths_list env mp fs ∧
        p ∉ get_all_baseline_paths_ok db))
  ∧ (∀ e ∈ ch.added, e.reason = "New file not in baseline")
  ∧ (∀ p, (∃ e ∈ ch.deleted, e.file = p) ↔
      (p ∈ get_all_baseline_paths_ok db ∧
        p ∉ current_paths_list env mp fs))
  ∧ (∀ e ∈ ch.deleted, e.reason = "File deleted from monitored path") := by
  obtain ⟨hb, hch⟩ := check_integrity_ok h
  subst hch
  rw [edge_added_list_nil, List.append_nil]
  refine ⟨fun p => mem_added_list_iff env mp fs db p, ?_,
    fun p => mem_deleted_list_iff env mp fs db p, ?_⟩
  · intro e he
    simp only [added_list, List.mem_map, List.mem_filter] at he
    obtain ⟨q, _, rfl⟩ := he
    rfl
  · intro e he
    simp only [deleted_list, List.mem_map, List.mem_filter] at he
    obtain ⟨q, _, rfl⟩ := he
    rfl

/-- C2 amended witness: on the concrete run of the counterexample, the file
present on disk but not in the baseline is reported added, and the baseline
path missing from disk is reported deleted. -/
theorem added_deleted_sets_witness :
    (∃ e ∈ ({ added := [{ file := "/m/a.txt",
                          reason := "New file not in baseline" }],
              modified := [],
              deleted := [{ file := "/gone.txt",
                            reason := "File deleted from monitored path" }] } :
        Changes).added, e.file = "/m/a.txt")
  ∧ (∃ e ∈ ({ added := [{ file := "/m/a.txt",
                          reason := "New file not in baseline" }],
              modified := [],
              deleted := [{ file := "/gone.txt",
                            reason := "File deleted from monitored path" }] } :
        Changes).deleted, e.file = "/gone.txt") := by
  have h := added_deleted_sets envA mpA fsA
    { rows := [("/gone.txt", beG)], broken := false }
    { added := [{ file := "/m/a.txt", reason := "New file not in baseline" }],
      modified := [],
      deleted := [{ file := "/gone.txt",
                    reason := "File deleted from monitored path" }] }
    rfl
  exact ⟨(h.1 "/m/a.txt").mpr ⟨by decide, by decide⟩,
    (h.2.2.1 "/gone.txt").mpr ⟨by decide, by decide⟩⟩

/-- C4 counterexample: on a concrete run that successfully baselines exactly
one file (metadata, digest, and store write all succeed), the internal count
is 1 but the function's return value is `None`, not the count. -/
theorem create_baseline_returns_none_counterexample :
    (create_baseline envA mpA fsA emptyDB).2 = 1
  ∧ create_baseline_result envA mpA fsA emptyDB = none
  ∧ (none : Option Nat) ≠ some 1 := by
  refine ⟨by decide, rfl, by decide⟩

/-- C4 amended: `create_baseline` computes as its `monitored_count` (logged,
not returned — the Python function returns `None`) the number of scanned
monitored files for which digest computation and metadata capture succeed and
the store write is attempted, skipping every per-file failure without
aborting the scan. -/
theorem create_baseline_count (env : Env) (mp : MonitoredPaths) (fs : FS)
    (db : DB) :
    create_baseline_result env mp fs db = none
  ∧ (create_baseline env mp fs db).2 =
      ((scan_files env mp fs).filter
        (fun p => (mkEntry env fs p).isSome)).length := by
  refine ⟨rfl, ?_⟩
  rw [create_baseline]
  simpa using foldl_process_file_count env fs (scan_files env mp fs) db 0

/-- C9: `check_integrity` issues only read operations against the store (one
`get_all_baseline_paths`, then per-path `get_baseline_entry` calls), so the
stored path set and every stored row are identical before and after the
call. -/
theorem check_integrity_readonly (env : Env) (mp : MonitoredPaths) (fs : FS)
    (db : DB) :
    (∀ op ∈ check_integrity_trace env mp fs db, op.isWrite = false)
  ∧ (check_integrity_trace env mp fs db).foldl applyDbOp db = db := by
  have hops : ∀ op ∈ check_integrity_trace env mp fs db, op.isWrite = false := by
    intro op hop
    unfold check_integrity_trace at hop
    by_cases hb : db.broken
    · simp only [hb, if_true, List.mem_singleton] at hop
      subst hop; rfl
    · simp only [hb, Bool.false_eq_true, if_false, List.mem_cons] at hop
      rcases hop with rfl | hop
      · rfl
      · obtain ⟨p, hp, hpe⟩ := List.mem_filterMap.mp hop
        by_cases hmd : (get_file_metadata fs p).isSome
        · simp only [hmd, if_true, Option.some.injEq] at hpe
          subst hpe; rfl
        · simp [hmd] at hpe
  exact ⟨hops, foldl_applyDbOp_reads _ db hops⟩

/-- C7: starting from a fresh (empty) baseline store, running
`create_baseline` and then `check_integrity` on the same unchanged
filesystem and configuration yields a report with empty added, modified, and
deleted collections — provided the configured hash algorithm is available
and digests are non-empty strings (as real hex digests are). -/
theorem round_trip (env : Env) (mp : MonitoredPaths) (fs : FS)
    (halg : str_lower env.HASH_ALGORITHM ∈ env.hashEnv.algorithms_available)
    (hne : ∀ a c, env.hashEnv.hashFn a c ≠ "") :
    check_integrity env mp fs (create_baseline env mp fs emptyDB).1 =
      .ok { added := [], modified := [], deleted := [] } := by
  have hcal : ∀ (p : String) (fd : FileData), fs.files.lookup p = some fd →
      calculate_file_hash env.hashEnv fs p env.HASH_ALGORITHM =
        .ok (env.hashEnv.hashFn (str_lower env.HASH_ALGORITHM) fd.content) := by
    intro p fd hfd
    simp [calculate_file_hash, hfd, halg]
  have hmk : ∀ (p : String) (fd : FileData), fs.files.lookup p = some fd →
      mkEntry env fs p =
        some { file_path := p,
               file_hash := env.hashEnv.hashFn (str_lower env.HASH_ALGORITHM)
                 fd.content,
               file_size := fd.st_size, modification_time := fd.st_mtime,
               creation_time := fd.st_ctime,
               permissions := fd.st_mode &&& 0o777,
               baseline_timestamp := env.now } := by
    intro p fd hfd
    simp [mkEntry, hcal p fd hfd, get_file_metadata, hfd, hne]
  have hb' : (create_baseline env mp fs emptyDB).1.broken = false := by
    rw [create_baseline]
    exact foldl_process_file_broken env fs _ emptyDB 0
  have hlook : ∀ p, (create_baseline env mp fs emptyDB).1.rows.lookup p =
      if p ∈ scan_files env mp fs ∧ (mkEntry env fs p).isSome then
        mkEntry env fs p
      else none := by
    intro p
    rw [create_baseline, foldl_process_file_lookup env fs _ emptyDB 0 p rfl]
    rfl
  have hsomeOf : ∀ p ∈ scan_files env mp fs, (mkEntry env fs p).isSome := by
    intro p hp
    obtain ⟨fd, hfd⟩ := Option.isSome_iff_exists.mp
      ((mem_keys_iff_lookup_isSome fs.files p).mp
        (mem_fs_of_mem_scan env mp fs p hp))
    rw [hmk p fd hfd]
    rfl
  have hkeys : ∀ p,
      p ∈ get_all_baseline_paths_ok (create_baseline env mp fs emptyDB).1 ↔
        p ∈ scan_files env mp fs := by
    intro p
    rw [get_all_baseline_paths_ok, mem_keys_iff_lookup_isSome, hlook p]
    constructor
    · intro hs
      by_cases hc : p ∈ scan_files env mp fs ∧ (mkEntry env fs p).isSome
      · exact hc.1
      · rw [if_neg hc] at hs; cases hs
    · intro hp
      rw [if_pos ⟨hp, hsomeOf p hp⟩]
      exact hsomeOf p hp
  have hadded : added_list env mp fs (create_baseline env mp fs emptyDB).1 = [] := by
    rw [added_list]
    have hfil : (current_paths_list env mp fs).filter
        (fun p => !((get_all_baseline_paths_ok
          (create_baseline env mp fs emptyDB).1).contains p)) = [] := by
      rw [List.filter_eq_nil_iff]
      intro p hp
      have hscan : p ∈ scan_files env mp fs := by
        rw [current_paths_list] at hp
        exact List.mem_dedup.mp hp
      simp [(hkeys p).mpr hscan]
    rw [hfil]
    rfl
  have hdeleted : deleted_list env mp fs (create_baseline env mp fs emptyDB).1 = [] := by
    rw [deleted_list]
    have hfil : (get_all_baseline_paths_ok
        (create_baseline env mp fs emptyDB).1).filter
          (fun p => !((current_paths_list env mp fs).contains p)) = [] := by
      rw [List.filter_eq_nil_iff]
      intro p hp
      have hscan : p ∈ scan_files env mp fs := (hkeys p).mp hp
      have hcur : p ∈ current_paths_list env mp fs := by
        rw [current_paths_list]
        exact List.mem_dedup.mpr hscan
      simp [hcur]
    rw [hfil]
    rfl
  have hmod : modified_list env mp fs (create_baseline env mp fs emptyDB).1 = [] := by
    rw [modified_list, List.filterMap_eq_nil_iff]
    intro p hp
    rw [inter_list] at hp
    have hpk := (List.mem_filter.mp hp).1
    have hscan : p ∈ scan_files env mp fs := (hkeys p).mp hpk
    obtain ⟨fd, hfd⟩ := Option.isSome_iff_exists.mp
      ((mem_keys_iff_lookup_isSome fs.files p).mp
        (mem_fs_of_mem_scan env mp fs p hscan))
    have hmd : get_file_metadata fs p =
        some { file_path := p, file_size := fd.st_size,
               modification_time := fd.st_mtime, creation_time := fd.st_ctime,
               permissions := fd.st_mode &&& 0o777 } := by
      simp [get_file_metadata, hfd]
    have hbe : get_baseline_entry_ok (create_baseline env mp fs emptyDB).1 p =
        mkEntry env fs p := by
      rw [get_baseline_entry_ok, hlook p, if_pos ⟨hscan, hsomeOf p hscan⟩]
    simp only [hmd, hbe, hmk p fd hfd]
    simp [compare_entry, hcal p fd hfd]
  rw [check_integrity, if_neg (by rw [hb']; simp), hadded, hdeleted, hmod,
    edge_added_list_nil]
  rfl

/-- C7 witness: the concrete one-file filesystem baselined with `sha256`
available re-checks clean. -/
theorem round_trip_witness :
    check_integrity envA mpA fsA (create_baseline envA mpA fsA emptyDB).1 =
      .ok { added := [], modified := [], deleted := [] } :=
  round_trip envA mpA fsA (by decide) (fun a c h => by simp [envA, henvA] at h)

/-- C8: a path lying under an exclude prefix (even if also under an include
prefix) is never written to the store by `create_baseline`, and — whenever it
is not already in the baseline — `check_integrity` lists it in none of the
added, modified, or deleted collections: exclude wins. -/
theorem exclude_wins (env : Env) (mp : MonitoredPaths) (fs : FS) (p : String)
    (he : ∃ e ∈ mp.exclude_paths, startswith (env.abspath e) p = true) :
    (∀ db : DB, p ∉ get_all_baseline_paths_ok db →
      p ∉ get_all_baseline_paths_ok (create_baseline env mp fs db).1)
  ∧ (∀ (db : DB) (ch : Changes), p ∉ get_all_baseline_paths_ok db →
      check_integrity env mp fs db = .ok ch →
      (∀ e ∈ ch.added, e.file ≠ p) ∧ (∀ e ∈ ch.modified, e.file ≠ p) ∧
        (∀ e ∈ ch.deleted, e.file ≠ p)) := by
  have hscan := not_mem_scan_of_excluded env mp fs p he
  constructor
  · intro db hdb hmem
    rw [get_all_baseline_paths_ok, mem_keys_iff_lookup_isSome, create_baseline,
      foldl_process_file_lookup_not_mem env fs _ db 0 p hscan] at hmem
    rw [get_all_baseline_paths_ok, mem_keys_iff_lookup_isSome] at hdb
    exact hdb hmem
  · intro db ch hdb hch
    obtain ⟨hb, hche⟩ := check_integrity_ok hch
    subst hche
    refine ⟨?_, ?_, ?_⟩
    · intro e he' hef
      rcases List.mem_append.mp he' with ha | hedge
      · have h1 := (mem_added_list_iff env mp fs db p).mp ⟨e, ha, hef⟩
        have h2 : p ∈ scan_files env mp fs := by
          have := h1.1
          rw [current_paths_list] at this
          exact List.mem_dedup.mp this
        exact hscan h2
      · rw [edge_added_list_nil] at hedge
        cases hedge
    · intro e he' hef
      have hm := mem_modified_list env mp fs db e he'
      rw [hef] at hm
      exact hdb hm.1
    · intro e he' hef
      have hd := (mem_deleted_list_iff env mp fs db p).mp ⟨e, he', hef⟩
      exact hdb hd.1

/-- C8 witness: with include `/m` and exclude `/m/a`, the file `/m/a.txt`
(a raw-prefix match of the exclude entry) is not baselined. -/
theorem exclude_wins_witness :
    "/m/a.txt" ∉ get_all_baseline_paths_ok
      (create_baseline envA
        { include_paths := ["/m"], exclude_paths := ["/m/a"] } fsA
        emptyDB).1 := by
  have h := exclude_wins envA
    { include_paths := ["/m"], exclude_paths := ["/m/a"] } fsA "/m/a.txt"
    ⟨"/m/a", by decide, by decide⟩
  exact h.1 emptyDB (by decide)

/-- C10: the report of a `check_integrity` run over a well-formed store
partitions the reported paths — each of the added, modified, and deleted
collections is duplicate-free, no path occurs in two different collections,
and every modified entry carries exactly one mismatch kind. -/
theorem report_partition (env : Env) (mp : MonitoredPaths) (fs : FS) (db : DB)
    (ch : Changes) (hwf : db.wf)
    (h : check_integrity env mp fs db = .ok ch) :
    (ch.added.map (fun e => e.file)).Nodup
  ∧ (ch.modified.map (fun e => e.file)).Nodup
  ∧ (ch.deleted.map (fun e => e.file)).Nodup
  ∧ (∀ p, ¬((∃ e ∈ ch.added, e.file = p) ∧ ∃ e ∈ ch.modified, e.file = p))
  ∧ (∀ p, ¬((∃ e ∈ ch.added, e.file = p) ∧ ∃ e ∈ ch.deleted, e.file = p))
  ∧ (∀ p, ¬((∃ e ∈ ch.modified, e.file = p) ∧ ∃ e ∈ ch.deleted, e.file = p))
  ∧ (∀ e ∈ ch.modified, ∃! k : ModKind, e.detail.kind = k) := by
  obtain ⟨hb, hch⟩ := check_integrity_ok h
  subst hch
  rw [edge_added_list_nil, List.append_nil]
  have hcur : (current_paths_list env mp fs).Nodup := by
    rw [current_paths_list]
    exact List.nodup_dedup _
  have hbase : (get_all_baseline_paths_ok db).Nodup := hwf
  refine ⟨?_, ?_, ?_, ?_, ?_, ?_, ?_⟩
  · rw [added_list, map_file_map_mk]
    exact List.Nodup.filter _ hcur
  · rw [modified_list]
    exact nodup_filterMap_file _ _ (modified_list_file_eq env mp fs db)
      (by rw [inter_list]; exact List.Nodup.filter _ hbase)
  · rw [deleted_list, map_file_map_mk]
    exact List.Nodup.filter _ hbase
  · rintro p ⟨hadd, hmod⟩
    have h1 := (mem_added_list_iff env mp fs db p).mp hadd
    obtain ⟨e, he, hef⟩ := hmod
    have h2 := mem_modified_list env mp fs db e he
    rw [hef] at h2
    exact h1.2 h2.1
  · rintro p ⟨hadd, hdel⟩
    have h1 := (mem_added_list_iff env mp fs db p).mp hadd
    have h2 := (mem_deleted_list_iff env mp fs db p).mp hdel
    exact h2.2 h1.1
  · rintro p ⟨hmod, hdel⟩
    obtain ⟨e, he, hef⟩ := hmod
    have h2 := mem_modified_list env mp fs db e he
    rw [hef] at h2
    have h3 := (mem_deleted_list_iff env mp fs db p).mp hdel
    exact h3.2 h2.2
  · intro e _
    exact ⟨e.detail.kind, rfl, fun k hk => hk.symm⟩

/-- C10 witness: on the concrete run with one added and one deleted file, the
report's collections are duplicate-free and the added path does not recur in
the deleted collection. -/
theorem report_partition_witness :
    (({ added := [{ file := "/m/a.txt",
                    reason := "New file not in baseline" }],
        modified := [],
        deleted := [{ file := "/gone.txt",
                      reason := "File deleted from monitored path" }] } :
        Changes).added.map (fun e => e.file)).Nodup
  ∧ ¬((∃ e ∈ ({ added := [{ file := "/m/a.txt",
                            reason := "New file not in baseline" }],
                modified := [],
                deleted := [{ file := "/gone.txt",
                              reason := "File deleted from monitored path" }] } :
        Changes).added, e.file = "/m/a.txt")
    ∧ ∃ e ∈ ({ added := [{ file := "/m/a.txt",
                           reason := "New file not in baseline" }],
               modified := [],
               deleted := [{ file := "/gone.txt",
                             reason := "File deleted from monitored path" }] } :
        Changes).deleted, e.file = "/m/a.txt") := by
  have h := report_partition envA mpA fsA
    { rows := [("/gone.txt", beG)], broken := false }
    { added := [{ file := "/m/a.txt", reason := "New file not in baseline" }],
      modified := [],
      deleted := [{ file := "/gone.txt",
                    reason := "File deleted from monitored path" }] }
    (by simp [DB.wf]) rfl
  exact ⟨h.1, h.2.2.2.2.1 "/m/a.txt"⟩

end FIM
